import Mathlib

/-!
# picturescrape: the scraping pipeline of `main.go`

A shallow embedding of `scrapePictures`, `removeDuplicates` and
`isValidImageURL` from `main.go`, together with the small part of the Go
standard library (`strings`, `regexp`) and of `colly` that these
functions call.

Go strings are byte sequences; they are embedded as lists of byte values.
-/

namespace PictureScrape

/-! ## Go strings -/

/-- A Go string: an immutable sequence of bytes, each byte given by its value. -/
abbrev GoString := List Nat

/-- The Go string of an ASCII literal (one byte per character). -/
def str (s : String) : GoString := s.data.map Char.toNat

/-- Go `strings.HasPrefix(s, pre)`. -/
def HasPrefix : GoString → GoString → Bool
  | _, [] => true
  | [], _ :: _ => false
  | c :: s, p :: pre => c == p && HasPrefix s pre

/-- Go `strings.HasSuffix(s, suf)`: the last `len(suf)` bytes of `s` are `suf`. -/
def HasSuffix (s suf : GoString) : Bool :=
  suf.length ≤ s.length && s.drop (s.length - suf.length) == suf

/-- Go `strings.Contains(s, substr)`: `substr` occurs at some offset of `s`. -/
def Contains : GoString → GoString → Bool
  | [], substr => HasPrefix [] substr
  | c :: s, substr => HasPrefix (c :: s) substr || Contains s substr

/-- The ASCII branch of Go `strings.ToLower`: `c += 'a' - 'A'` for `'A' <= c <= 'Z'`. -/
def lowerByte (c : Nat) : Nat :=
  if 65 ≤ c ∧ c ≤ 90 then c + (97 - 65) else c

/-- Go `strings.ToLower(s)`. A string whose bytes are all below `utf8.RuneSelf`
(0x80) is lowered bytewise; any other string is handed to
`strings.Map(unicode.ToLower, s)`, whose Unicode tables are the parameter
`unicodeLower`. -/
def ToLower (unicodeLower : GoString → GoString) (s : GoString) : GoString :=
  if s.all (fun c => c < 128) then s.map lowerByte else unicodeLower s

/-- The bytes captured by `(.*?)\)`: everything up to the first `)`, as long as
no newline comes first (`.` does not match `\n`). -/
def captureToParen : GoString → Option GoString
  | [] => none
  | c :: s =>
    if c = 41 then some []
    else if c = 10 then none
    else (captureToParen s).map (fun m => c :: m)

/-- Capture group 1 of `regexp.MustCompile("url\\((.*?)\\)").FindStringSubmatch(s)`
for the leftmost match, or `none` when the result has no submatch
(`len(matches) > 1` fails). -/
def FindStringSubmatch : GoString → Option GoString
  | [] => none
  | c :: s =>
    match (if HasPrefix (c :: s) (str "url(") then captureToParen ((c :: s).drop 4) else none) with
    | some m => some m
    | none => FindStringSubmatch s

/-! ## `removeDuplicates` and `isValidImageURL` -/

/-- The loop of `removeDuplicates`: `seen` holds the keys of the map set so
far, `result` the slice built so far. -/
def removeDuplicatesLoop (seen result : List GoString) : List GoString → List GoString
  | [] => result
  | src :: rest =>
    if src ∈ seen then removeDuplicatesLoop seen result rest
    else removeDuplicatesLoop (src :: seen) (result ++ [src]) rest

/-- Go `error` values. -/
abbrev GoError := String

/-- The function `removeDuplicates` of `main.go`; the second component is the error. -/
def removeDuplicates (pictureSrc : List GoString) : List GoString × Option GoError :=
  (removeDuplicatesLoop [] [] pictureSrc, none)

/-- The slice `validExtensions` of `isValidImageURL`. -/
def validExtensions : List GoString :=
  [str ".png", str ".jpg", str ".jpeg", str ".gif", str ".bmp", str ".svg"]

/-- The `for _, ext := range validExtensions` loop of `isValidImageURL`. -/
def isValidImageURLLoop (unicodeLower : GoString → GoString) (url : GoString) :
    List GoString → Bool
  | [] => false
  | ext :: rest =>
    if HasSuffix (ToLower unicodeLower url) ext then true
    else isValidImageURLLoop unicodeLower url rest

/-- The function `isValidImageURL` of `main.go`. -/
def isValidImageURL (unicodeLower : GoString → GoString) (url : GoString) : Bool :=
  isValidImageURLLoop unicodeLower url validExtensions

/-! ## The part of `colly` used by `scrapePictures` -/

/-- An element handed to an `OnHTML` callback (`colly.HTMLElement`): its tag
name and its attributes (key, value) in source order. -/
structure HTMLElement where
  Name : GoString
  attributes : List (GoString × GoString)

/-- The method `(*HTMLElement).Attr(k)` of colly: the value of the first
attribute whose key is `k`, the empty string when there is none. -/
def HTMLElement.Attr (h : HTMLElement) (k : GoString) : GoString :=
  match h.attributes.find? (fun a => a.1 == k) with
  | some a => a.2
  | none => []

/-- The selector `td[style]`: a `td` element that carries a `style` attribute. -/
def selectTdStyle (e : HTMLElement) : Bool :=
  e.Name == str "td" && e.attributes.any (fun a => a.1 == str "style")

/-- The selector `img`. -/
def selectImg (e : HTMLElement) : Bool :=
  e.Name == str "img"

/-- An entry of the collector's `htmlCallbacks`, as appended by `OnHTML`; the
callback acts on the slice `pictureSrc` it closes over. -/
structure htmlCallbackContainer where
  Selector : HTMLElement → Bool
  Function : HTMLElement → List GoString → List GoString

/-- The host that `url.Parse(page)` reports and colly checks against the
allowed domains. It is the authority of the URL, which ends at the first `/`,
so it holds no `/` byte. -/
structure URLHost where
  name : GoString
  noSlash : 47 ∉ name

/-- What the one `collector.Visit(page)` meets. Either the visit fails with an
error (request check, URL parsing, network, status): colly returns every
such error before it runs an `OnHTML` callback. Or the page URL parses with
host `Host` and the request for it is answered by a document with these
elements, in document order (none when the response is not HTML). -/
inductive VisitOutcome where
  | failed (err : GoError)
  | served (Host : URLHost) (elements : List HTMLElement)

/-- The error `colly.ErrForbiddenDomain`. -/
def ErrForbiddenDomain : GoError := "Forbidden domain"

/-- The method `isDomainAllowed` of colly for a collector without disallowed
domains: with no allowed domain set every domain passes, otherwise the
domain has to be one of them. -/
def isDomainAllowed (AllowedDomains : List GoString) (domain : GoString) : Bool :=
  if AllowedDomains.length = 0 then true
  else AllowedDomains.any (fun d2 => d2 == domain)

/-- The method `handleOnHTML` of colly: `for _, cc := range c.htmlCallbacks`, in
registration order, `doc.Find(cc.Selector).Each(...)` calls `cc.Function` on
every matching element in document order. -/
def handleOnHTML (htmlCallbacks : List htmlCallbackContainer) (doc : List HTMLElement)
    (pictureSrc : List GoString) : List GoString :=
  htmlCallbacks.foldl
    (fun acc cc => (doc.filter cc.Selector).foldl (fun acc e => cc.Function e acc) acc)
    pictureSrc

/-- The method `Visit` of colly as `scrapePictures` uses it. An error is handed
back with the slice untouched; a host outside the allowed domains is refused
with `ErrForbiddenDomain` before any request; otherwise the registered
callbacks run over the parsed elements and nil is returned. -/
def Visit (AllowedDomains : List GoString) (htmlCallbacks : List htmlCallbackContainer)
    (net : VisitOutcome) (pictureSrc : List GoString) : List GoString × Option GoError :=
  match net with
  | .failed err => (pictureSrc, some err)
  | .served Host elements =>
    if isDomainAllowed AllowedDomains Host.name then
      (handleOnHTML htmlCallbacks elements pictureSrc, none)
    else (pictureSrc, some ErrForbiddenDomain)

/-! ## `scrapePictures` -/

/-- The constant `maxImages` of `main.go`. -/
def maxImages : Nat := 500

/-- The protocol `scrapePictures` extracts from the page URL. -/
def protocolOf (page : GoString) : GoString :=
  if HasPrefix page (str "https") then str "https" else str "http"

/-- The handler registered for `td[style]`. -/
def tdStyleHandler (protocol domain : GoString) (element : HTMLElement)
    (pictureSrc : List GoString) : List GoString :=
  let style := element.Attr (str "style")
  match FindStringSubmatch style with
  | some m => pictureSrc ++ [protocol ++ str "://" ++ domain ++ str "/" ++ m]
  | none => pictureSrc

/-- The rewriting of `src` in the handler registered for `img`
(the `if strings.HasPrefix(src, "//") ... else if !strings.HasPrefix(src, "http")`
statement). -/
def resolveSrc (protocol domain src : GoString) : GoString :=
  if HasPrefix src (str "//") then
    protocol ++ str ":" ++ src
  else if !HasPrefix src (str "http") then
    if Contains src domain then
      protocol ++ str "://" ++ src
    else
      protocol ++ str "://" ++ domain ++ str "/" ++ src
  else src

/-- The handler registered for `img`. -/
def imgHandler (unicodeLower : GoString → GoString) (protocol domain : GoString)
    (element : HTMLElement) (pictureSrc : List GoString) : List GoString :=
  let src := resolveSrc protocol domain (element.Attr (str "src"))
  if isValidImageURL unicodeLower src then pictureSrc ++ [src] else pictureSrc

/-- The collector's `htmlCallbacks` after the two `OnHTML` calls of
`scrapePictures`: the `td[style]` handler first, the `img` handler second. -/
def registeredCallbacks (unicodeLower : GoString → GoString) (protocol domain : GoString) :
    List htmlCallbackContainer :=
  [⟨selectTdStyle, tdStyleHandler protocol domain⟩,
   ⟨selectImg, imgHandler unicodeLower protocol domain⟩]

/-- The function `scrapePictures` of `main.go`. `net` is what the one page
visit meets; `unicodeLower` is the Unicode branch of `strings.ToLower`. The
collector is created with `colly.AllowedDomains(domain)`. -/
def scrapePictures (unicodeLower : GoString → GoString) (domain page : GoString)
    (net : VisitOutcome) : List GoString × Option GoError :=
  let pictureSrc : List GoString := []
  let protocol := protocolOf page
  let AllowedDomains : List GoString := [domain]
  let htmlCallbacks := registeredCallbacks unicodeLower protocol domain
  if maxImages ≤ pictureSrc.length then (pictureSrc, none)
  else
    match Visit AllowedDomains htmlCallbacks net pictureSrc with
    | (pictureSrc, some err) => (pictureSrc, some err)
    | (pictureSrc, none) =>
      match removeDuplicates pictureSrc with
      | (pictureSrc, some err) => (pictureSrc, some err)
      | (pictureSrc, none) => (pictureSrc, none)

/-- An `img` element with the given `src`. -/
def imgElement (src : GoString) : HTMLElement :=
  ⟨str "img", [(str "src", src)]⟩

/-- A `td` element with the given `style`. -/
def tdElement (style : GoString) : HTMLElement :=
  ⟨str "td", [(str "style", style)]⟩

/-- The fixture page: two distinct images, a repeated one, and a styled cell. -/
def fixturePage : List HTMLElement :=
  [imgElement (str "/a.jpg"), imgElement (str "//cdn.x.com/b.png"),
   imgElement (str "/a.jpg"), tdElement (str "background-image:url(c.gif)")]

/-- A page of 600 `img` elements `aa.png`, `ab.png`, ... with pairwise distinct names. -/
def manyImagesPage : List HTMLElement :=
  (List.range 600).map (fun i => imgElement ((97 + i / 26) :: (97 + i % 26) :: str ".png"))

/-- A page whose only element is a table cell with a script-served background. -/
def styledCellPage : List HTMLElement :=
  [tdElement (str "background:url(/bg.php)")]

/-- A page with the two `img` sources `http.png` and `/blog/example.com-review.jpg`. -/
def misresolvedPage : List HTMLElement :=
  [imgElement (str "http.png"), imgElement (str "/blog/example.com-review.jpg")]

/-- The host `x.com`. -/
def hostXCom : URLHost := ⟨str "x.com", by decide⟩

/-- The host `example.com`. -/
def hostExampleCom : URLHost := ⟨str "example.com", by decide⟩

/-! ## Specification-side notions -/

/-- The four resolution rules as the specification words them, in priority
order: protocol-relative, already `http`, carrying the domain, lacking the host. -/
def resolveSpec (r d p : GoString) : GoString :=
  if str "//" <+: r then p ++ str ":" ++ r
  else if str "http" <+: r then r
  else if d <:+: r then p ++ str "://" ++ r
  else p ++ str "://" ++ d ++ str "/" ++ r

/-- The strings of a list that are not in `seen`, each kept at its first occurrence. -/
def firstOccurrences (seen : List GoString) : List GoString → List GoString
  | [] => []
  | src :: rest =>
    if src ∈ seen then firstOccurrences seen rest
    else src :: firstOccurrences (src :: seen) rest

/-- A host is present: the text has a first byte and it is not `/`. -/
def hostPresent : GoString → Bool
  | [] => false
  | c :: _ => c != 47

/-- A syntactically absolute URL: it begins with `http://` or `https://` and
the text after `://` starts with a host. -/
def isAbsoluteURL (u : GoString) : Bool :=
  (HasPrefix u (str "http://") && hostPresent (u.drop 7))
    || (HasPrefix u (str "https://") && hostPresent (u.drop 8))

/-- The `src` values the `img` handler turns into an absolute URL: after `//`
a host follows; a value starting with `http` is absolute already; any other
value does not both start with `/` and contain the domain. -/
def srcResolvable (domain src : GoString) : Bool :=
  if HasPrefix src (str "//") then hostPresent (src.drop 2)
  else if HasPrefix src (str "http") then isAbsoluteURL src
  else !(HasPrefix src (str "/") && Contains src domain)

/-- The elements the handlers run over: those of the served document when its
host is the domain, none otherwise. -/
def VisitOutcome.handled (domain : GoString) : VisitOutcome → List HTMLElement
  | .failed _ => []
  | .served Host elements => if Host.name = domain then elements else []

/-- The candidates the `td[style]` handler appends for a document, in document order. -/
def tdCandidates (protocol domain : GoString) (doc : List HTMLElement) : List GoString :=
  (doc.filter selectTdStyle).filterMap (fun e =>
    (FindStringSubmatch (e.Attr (str "style"))).map
      (fun m => protocol ++ str "://" ++ domain ++ str "/" ++ m))

/-- The candidates the `img` handler appends for a document, in document order. -/
def imgCandidates (unicodeLower : GoString → GoString) (protocol domain : GoString)
    (doc : List HTMLElement) : List GoString :=
  ((doc.filter selectImg).map (fun e => resolveSrc protocol domain (e.Attr (str "src")))).filter
    (isValidImageURL unicodeLower)

/-! ## Lemmas -/

/-! The byte values of the literals used below. -/

theorem str_http : str "http" = [104, 116, 116, 112] := rfl
theorem str_https : str "https" = [104, 116, 116, 112, 115] := rfl
theorem str_slashes : str "//" = [47, 47] := rfl
theorem str_slash : str "/" = [47] := rfl
theorem str_colon : str ":" = [58] := rfl
theorem str_sep : str "://" = [58, 47, 47] := rfl
theorem str_http_sep : str "http://" = [104, 116, 116, 112, 58, 47, 47] := rfl
theorem str_https_sep : str "https://" = [104, 116, 116, 112, 115, 58, 47, 47] := rfl
theorem str_png : str ".png" = [46, 112, 110, 103] := rfl
theorem str_xcom : str "x.com" = [120, 46, 99, 111, 109] := rfl

/-- `HasPrefix` decides the prefix relation. -/
theorem HasPrefix_iff (s pre : GoString) : HasPrefix s pre = true ↔ pre <+: s := by
  induction s generalizing pre with
  | nil => cases pre <;> simp [HasPrefix]
  | cons c s ih =>
    cases pre with
    | nil => simp [HasPrefix]
    | cons p pre =>
      simp only [HasPrefix, Bool.and_eq_true, beq_iff_eq, ih, List.cons_prefix_cons]
      constructor
      · rintro ⟨h1, h2⟩; exact ⟨h1.symm, h2⟩
      · rintro ⟨h1, h2⟩; exact ⟨h1.symm, h2⟩

/-- `HasSuffix` decides the suffix relation. -/
theorem HasSuffix_iff (s suf : GoString) : HasSuffix s suf = true ↔ suf <:+ s := by
  unfold HasSuffix
  constructor
  · intro h
    simp only [Bool.and_eq_true, decide_eq_true_eq, beq_iff_eq] at h
    rw [← h.2]
    exact List.drop_suffix _ _
  · intro h
    have hl := h.length_le
    simp only [Bool.and_eq_true, decide_eq_true_eq, beq_iff_eq]
    refine ⟨hl, ?_⟩
    obtain ⟨t, rfl⟩ := h
    simp

/-- `Contains` decides the contiguous-substring relation. -/
theorem Contains_iff (s substr : GoString) : Contains s substr = true ↔ substr <:+: s := by
  induction s with
  | nil => cases substr <;> simp [Contains, HasPrefix]
  | cons c s ih =>
    simp only [Contains, Bool.or_eq_true, ih, HasPrefix_iff]
    rw [List.infix_cons_iff]

/-- The loop appends to `result` the first occurrences not seen before. -/
theorem removeDuplicatesLoop_eq (seen result xs : List GoString) :
    removeDuplicatesLoop seen result xs = result ++ firstOccurrences seen xs := by
  induction xs generalizing seen result with
  | nil => simp [removeDuplicatesLoop, firstOccurrences]
  | cons x xs ih =>
    by_cases h : x ∈ seen
    · simp [removeDuplicatesLoop, firstOccurrences, h, ih]
    · simp [removeDuplicatesLoop, firstOccurrences, h, ih]

/-- Membership in the first occurrences. -/
theorem mem_firstOccurrences (seen xs : List GoString) (a : GoString) :
    a ∈ firstOccurrences seen xs ↔ a ∈ xs ∧ a ∉ seen := by
  induction xs generalizing seen with
  | nil => simp [firstOccurrences]
  | cons x xs ih =>
    by_cases h : x ∈ seen
    · simp only [firstOccurrences, h, if_true, ih, List.mem_cons]
      constructor
      · rintro ⟨h1, h2⟩; exact ⟨Or.inr h1, h2⟩
      · rintro ⟨h1 | h1, h2⟩
        · subst h1; exact absurd h h2
        · exact ⟨h1, h2⟩
    · simp only [firstOccurrences, h, if_false, List.mem_cons, ih, not_or]
      constructor
      · rintro (h1 | ⟨h1, h2, h3⟩)
        · subst h1; exact ⟨Or.inl rfl, h⟩
        · exact ⟨Or.inr h1, h3⟩
      · rintro ⟨h1 | h1, h2⟩
        · exact Or.inl h1
        · by_cases hax : a = x
          · exact Or.inl hax
          · exact Or.inr ⟨h1, hax, h2⟩

/-- The first occurrences hold no element twice. -/
theorem nodup_firstOccurrences (seen xs : List GoString) :
    (firstOccurrences seen xs).Nodup := by
  induction xs generalizing seen with
  | nil => simp [firstOccurrences]
  | cons x xs ih =>
    by_cases h : x ∈ seen
    · simp [firstOccurrences, h, ih]
    · simp [firstOccurrences, h, ih, mem_firstOccurrences]

/-- The first occurrences form a subsequence of the input. -/
theorem sublist_firstOccurrences (seen xs : List GoString) :
    (firstOccurrences seen xs).Sublist xs := by
  induction xs generalizing seen with
  | nil => simp [firstOccurrences]
  | cons x xs ih =>
    by_cases h : x ∈ seen
    · simp only [firstOccurrences, h, if_true]
      exact (ih seen).trans (List.sublist_cons_self x xs)
    · simp only [firstOccurrences, h, if_false]
      exact (ih (x :: seen)).cons₂ x

/-- The first occurrences are ordered by position of first occurrence in the input. -/
theorem pairwise_firstOccurrences (seen xs : List GoString) :
    (firstOccurrences seen xs).Pairwise (fun a b => xs.indexOf a < xs.indexOf b) := by
  induction xs generalizing seen with
  | nil => simp [firstOccurrences]
  | cons x xs ih =>
    by_cases h : x ∈ seen
    · simp only [firstOccurrences, h, if_true]
      refine (ih seen).imp_of_mem ?_
      intro a b ha hb hab
      have hax : x ≠ a := by
        rintro rfl; exact ((mem_firstOccurrences _ _ _).1 ha).2 h
      have hbx : x ≠ b := by
        rintro rfl; exact ((mem_firstOccurrences _ _ _).1 hb).2 h
      have hax' : (x == a) = false := beq_eq_false_iff_ne.2 hax
      have hbx' : (x == b) = false := beq_eq_false_iff_ne.2 hbx
      simpa [List.indexOf_cons, hax', hbx'] using hab
    · simp only [firstOccurrences, h, if_false, List.pairwise_cons]
      constructor
      · intro b hb
        have hbx : x ≠ b := by
          rintro rfl
          exact ((mem_firstOccurrences _ _ _).1 hb).2 (List.mem_cons_self _ _)
        have hbx' : (x == b) = false := beq_eq_false_iff_ne.2 hbx
        simp [List.indexOf_cons, hbx']
      · refine (ih (x :: seen)).imp_of_mem ?_
        intro a b ha hb hab
        have hax : x ≠ a := by
          rintro rfl
          exact ((mem_firstOccurrences _ _ _).1 ha).2 (List.mem_cons_self _ _)
        have hbx : x ≠ b := by
          rintro rfl
          exact ((mem_firstOccurrences _ _ _).1 hb).2 (List.mem_cons_self _ _)
        have hax' : (x == a) = false := beq_eq_false_iff_ne.2 hax
        have hbx' : (x == b) = false := beq_eq_false_iff_ne.2 hbx
        simpa [List.indexOf_cons, hax', hbx'] using hab

/-- A list without repetition and without seen elements is kept whole. -/
theorem firstOccurrences_of_nodup (seen xs : List GoString) (hn : xs.Nodup)
    (hd : ∀ a ∈ xs, a ∉ seen) : firstOccurrences seen xs = xs := by
  induction xs generalizing seen with
  | nil => simp [firstOccurrences]
  | cons x xs ih =>
    have hx : x ∉ seen := hd x (List.mem_cons_self _ _)
    rw [List.nodup_cons] at hn
    simp only [firstOccurrences, hx, if_false]
    rw [ih (x :: seen) hn.2]
    intro a ha
    simp only [List.mem_cons, not_or]
    refine ⟨?_, hd a (List.mem_cons_of_mem _ ha)⟩
    rintro rfl
    exact hn.1 ha

/-- Running the `td[style]` handler over a list of elements. -/
theorem foldl_tdStyleHandler (p d : GoString) (l : List HTMLElement) (acc : List GoString) :
    l.foldl (fun acc e => tdStyleHandler p d e acc) acc
      = acc ++ l.filterMap (fun e => (FindStringSubmatch (e.Attr (str "style"))).map
          (fun m => p ++ str "://" ++ d ++ str "/" ++ m)) := by
  induction l generalizing acc with
  | nil => simp
  | cons e l ih =>
    rw [List.foldl_cons, ih]
    cases h : FindStringSubmatch (e.Attr (str "style")) with
    | none => simp [tdStyleHandler, h, List.filterMap_cons]
    | some m => simp [tdStyleHandler, h, List.filterMap_cons]

/-- Running the `img` handler over a list of elements. -/
theorem foldl_imgHandler (U : GoString → GoString) (p d : GoString) (l : List HTMLElement)
    (acc : List GoString) :
    l.foldl (fun acc e => imgHandler U p d e acc) acc
      = acc ++ (l.map (fun e => resolveSrc p d (e.Attr (str "src")))).filter
          (isValidImageURL U) := by
  induction l generalizing acc with
  | nil => simp
  | cons e l ih =>
    rw [List.foldl_cons, ih]
    by_cases h : isValidImageURL U (resolveSrc p d (e.Attr (str "src"))) = true
    · simp [imgHandler, h, List.filter_cons]
    · simp [imgHandler, h, List.filter_cons]

/-- The registered callbacks run over a document give the `td[style]`
candidates followed by the `img` candidates. -/
theorem handleOnHTML_registered (U : GoString → GoString) (p d : GoString)
    (doc : List HTMLElement) :
    handleOnHTML (registeredCallbacks U p d) doc []
      = tdCandidates p d doc ++ imgCandidates U p d doc := by
  simp [registeredCallbacks, handleOnHTML, foldl_tdStyleHandler, foldl_imgHandler,
    tdCandidates, imgCandidates]

/-- With one allowed domain, exactly that domain is allowed. -/
theorem isDomainAllowed_singleton (d host : GoString) :
    isDomainAllowed [d] host = true ↔ host = d := by
  have h : isDomainAllowed [d] host = (d == host) := by
    simp [isDomainAllowed]
  rw [h, beq_iff_eq]
  exact eq_comm

/-- A failed visit: nothing was accumulated, the error is passed on. -/
theorem scrapePictures_failed (U : GoString → GoString) (d page : GoString) (e : GoError) :
    scrapePictures U d page (.failed e) = ([], some e) := rfl

/-- A page whose host is not the domain is refused. -/
theorem scrapePictures_forbidden (U : GoString → GoString) (d page : GoString)
    (host : URLHost) (doc : List HTMLElement) (h : host.name ≠ d) :
    scrapePictures U d page (.served host doc) = ([], some ErrForbiddenDomain) := by
  have ha : isDomainAllowed [d] host.name = false := by
    rw [← Bool.not_eq_true, isDomainAllowed_singleton]; exact h
  simp [scrapePictures, Visit, ha, maxImages]

/-- A served page of the domain: the candidates of the two handlers, each kept once. -/
theorem scrapePictures_served (U : GoString → GoString) (d page : GoString)
    (host : URLHost) (doc : List HTMLElement) (h : host.name = d) :
    scrapePictures U d page (.served host doc)
      = (firstOccurrences [] (tdCandidates (protocolOf page) d doc
          ++ imgCandidates U (protocolOf page) d doc), none) := by
  have ha : isDomainAllowed [d] host.name = true := (isDomainAllowed_singleton _ _).2 h
  simp [scrapePictures, Visit, ha, maxImages, handleOnHTML_registered, removeDuplicates,
    removeDuplicatesLoop_eq]

/-- The protocol taken from the page URL is `http` or `https`. -/
theorem protocolOf_cases (page : GoString) :
    protocolOf page = str "http" ∨ protocolOf page = str "https" := by
  unfold protocolOf
  split
  · exact Or.inr rfl
  · exact Or.inl rfl

/-- A string starts with any of its leading parts. -/
theorem HasPrefix_append (pre s : GoString) : HasPrefix (pre ++ s) pre = true :=
  (HasPrefix_iff _ _).2 (List.prefix_append _ _)

/-- After `protocol://`, a URL is absolute exactly when a host follows. -/
theorem isAbsoluteURL_protocol (p x : GoString) (hp : p = str "http" ∨ p = str "https") :
    isAbsoluteURL (p ++ (str "://" ++ x)) = hostPresent x := by
  rcases hp with rfl | rfl
  · simp [isAbsoluteURL, str_http, str_sep, str_http_sep, str_https_sep, HasPrefix]
  · simp [isAbsoluteURL, str_https, str_sep, str_http_sep, str_https_sep, HasPrefix]

/-- A host stays present when text is appended. -/
theorem hostPresent_append (d x : GoString) (hd : hostPresent d = true) :
    hostPresent (d ++ x) = true := by
  cases d with
  | nil => simp [hostPresent] at hd
  | cons c d => simpa [hostPresent] using hd

/-- The resolved source is absolute exactly for the resolvable sources. -/
theorem isAbsoluteURL_resolveSrc (p d r : GoString) (hp : p = str "http" ∨ p = str "https")
    (hd : hostPresent d = true) :
    isAbsoluteURL (resolveSrc p d r) = srcResolvable d r := by
  unfold resolveSrc srcResolvable
  cases h1 : HasPrefix r (str "//") with
  | true =>
    obtain ⟨t, rfl⟩ := (HasPrefix_iff _ _).1 h1
    have e : p ++ str ":" ++ (str "//" ++ t) = p ++ (str "://" ++ t) := by
      simp [str_colon, str_slashes, str_sep]
    simp only [if_true, e, isAbsoluteURL_protocol p t hp]
    simp [str_slashes]
  | false =>
    cases h2 : HasPrefix r (str "http") with
    | true => simp
    | false =>
      cases h3 : Contains r d with
      | true =>
        have hne : r ≠ [] := by
          rintro rfl
          have := (Contains_iff _ _).1 h3
          simp at this
          subst this
          simp [hostPresent] at hd
        cases r with
        | nil => exact absurd rfl hne
        | cons c r =>
          simp [isAbsoluteURL_protocol p _ hp, hostPresent, str_slash, HasPrefix]
          rfl
      | false =>
        simp [isAbsoluteURL_protocol p _ hp, hostPresent_append _ _ hd]

/-- The returned elements are the candidates of the two handlers over the
elements handled. -/
theorem mem_scrapePictures (U : GoString → GoString) (d page : GoString) (net : VisitOutcome)
    (u : GoString) :
    u ∈ (scrapePictures U d page net).1 ↔
      u ∈ tdCandidates (protocolOf page) d (net.handled d)
        ∨ u ∈ imgCandidates U (protocolOf page) d (net.handled d) := by
  cases net with
  | failed e => simp [scrapePictures_failed, VisitOutcome.handled, tdCandidates, imgCandidates]
  | served host doc =>
    by_cases h : host.name = d
    · simp [scrapePictures_served _ _ _ _ _ h, VisitOutcome.handled, h, mem_firstOccurrences]
    · simp [scrapePictures_forbidden _ _ _ _ _ h, VisitOutcome.handled, h, tdCandidates,
        imgCandidates]

/-- When an element is handled, the domain is a URL host: a host is present in it. -/
theorem hostPresent_of_handled (d : GoString) (net : VisitOutcome) (e : HTMLElement)
    (hne : d ≠ []) (he : e ∈ net.handled d) : hostPresent d = true := by
  cases net with
  | failed err => simp [VisitOutcome.handled] at he
  | served host doc =>
    by_cases h : host.name = d
    · have hs := host.noSlash
      rw [h] at hs
      cases d with
      | nil => exact absurd rfl hne
      | cons c d =>
        simp only [hostPresent, bne_iff_ne, ne_eq]
        rintro rfl
        exact hs (List.mem_cons_self _ _)
    · simp [VisitOutcome.handled, h] at he

/-- An ASCII string ending in `.png` passes `isValidImageURL`. -/
theorem isValidImageURL_png (U : GoString → GoString) (pre : GoString)
    (h : ∀ c ∈ pre, c < 128) : isValidImageURL U (pre ++ str ".png") = true := by
  have hall : (pre ++ str ".png").all (fun c => decide (c < 128)) = true := by
    simp only [List.all_append, Bool.and_eq_true, List.all_eq_true, decide_eq_true_eq]
    exact ⟨h, by decide⟩
  have hlow : ToLower U (pre ++ str ".png") = pre.map lowerByte ++ str ".png" := by
    simp only [ToLower, hall, if_true, List.map_append]
    rfl
  have hs : HasSuffix (ToLower U (pre ++ str ".png")) (str ".png") = true := by
    rw [hlow, HasSuffix_iff]
    exact List.suffix_append _ _
  simp [isValidImageURL, validExtensions, isValidImageURLLoop, hs]

/-- A six-byte file name `ab.png` is resolved against the domain. -/
theorem resolveSrc_name (a b : Nat) (ha : 97 ≤ a) :
    resolveSrc (str "https") (str "x.com") (a :: b :: str ".png")
      = str "https://x.com/" ++ a :: b :: str ".png" := by
  have h47 : a ≠ 47 := by omega
  have h1 : HasPrefix (a :: b :: str ".png") (str "//") = false := by
    simp [HasPrefix, str_slashes, h47]
  have h2 : HasPrefix (a :: b :: str ".png") (str "http") = false := by
    simp [HasPrefix, str_http, str_png]
  have h3 : Contains (a :: b :: str ".png") (str "x.com") = false := by
    simp [Contains, HasPrefix, str_xcom, str_png]
  simp only [resolveSrc, h1, h2, h3, Bool.not_false, if_true, if_false]
  rfl

/-- The `img` candidates of the 600-image page. -/
theorem manyImages_candidates (U : GoString → GoString) :
    imgCandidates U (str "https") (str "x.com") manyImagesPage
      = (List.range 600).map
          (fun i => str "https://x.com/" ++ (97 + i / 26) :: (97 + i % 26) :: str ".png") := by
  unfold imgCandidates manyImagesPage
  have hsel : ∀ s, selectImg (imgElement s) = true := fun s => rfl
  have hattr : ∀ s, (imgElement s).Attr (str "src") = s := fun s => rfl
  have hf : ∀ l : List HTMLElement, (∀ e ∈ l, selectImg e = true) → l.filter selectImg = l :=
    fun l h => List.filter_eq_self.2 h
  rw [hf _ (by
    intro e he
    obtain ⟨i, _, rfl⟩ := List.mem_map.1 he
    exact hsel _)]
  rw [List.map_map, List.filter_eq_self.2]
  · apply List.map_congr_left
    intro i _
    simp only [Function.comp, hattr]
    exact resolveSrc_name _ _ (by omega)
  · intro u hu
    obtain ⟨i, hi, rfl⟩ := List.mem_map.1 hu
    have hi' : i < 600 := List.mem_range.1 hi
    simp only [Function.comp, hattr]
    rw [resolveSrc_name _ _ (by omega)]
    have e : str "https://x.com/" ++ (97 + i / 26) :: (97 + i % 26) :: str ".png"
        = (str "https://x.com/" ++ [97 + i / 26, 97 + i % 26]) ++ str ".png" := by simp
    rw [e]
    apply isValidImageURL_png
    intro c hc
    rcases List.mem_append.1 hc with h | h
    · have hlit : ∀ c ∈ str "https://x.com/", c < 128 := by decide
      exact hlit c h
    · simp only [List.mem_cons, List.mem_singleton, List.not_mem_nil, or_false] at h
      rcases h with rfl | rfl <;> omega

/-- The 600-image page has no `td[style]` candidates. -/
theorem manyImages_td (p d : GoString) : tdCandidates p d manyImagesPage = [] := by
  unfold tdCandidates manyImagesPage
  have hsel : ∀ s, selectTdStyle (imgElement s) = false := fun s => rfl
  rw [List.filter_eq_nil_iff.2]
  · rfl
  · intro e he
    obtain ⟨i, _, rfl⟩ := List.mem_map.1 he
    simp [hsel]

/-! ## The claims -/

/-- Claim C1. For every raw `src`, domain and protocol (in particular `http` and
`https`) the rewriting done by the `img` handler equals the four-rule
reference applied in priority order; the three stated values are produced:
`//cdn.example.com/a.png` gets `https:` in front, `/img/a.png` becomes
`https://example.com//img/a.png` with both slashes kept, and
`http://other.com/a.png` is returned unchanged. -/
theorem resolveSrc_eq_resolveSpec :
    (∀ r d p : GoString, resolveSrc p d r = resolveSpec r d p)
    ∧ resolveSrc (str "https") (str "example.com") (str "//cdn.example.com/a.png")
        = str "https://cdn.example.com/a.png"
    ∧ resolveSrc (str "https") (str "example.com") (str "/img/a.png")
        = str "https://example.com//img/a.png"
    ∧ resolveSrc (str "https") (str "example.com") (str "http://other.com/a.png")
        = str "http://other.com/a.png" := by
  refine ⟨?_, by decide, by decide, by decide⟩
  intro r d p
  unfold resolveSrc resolveSpec
  by_cases h1 : str "//" <+: r
  · simp [h1, (HasPrefix_iff _ _).2 h1]
  · have h1' : HasPrefix r (str "//") = false := by
      rw [← Bool.not_eq_true, HasPrefix_iff]; exact h1
    by_cases h2 : str "http" <+: r
    · simp [h1, h1', h2, (HasPrefix_iff _ _).2 h2]
    · have h2' : HasPrefix r (str "http") = false := by
        rw [← Bool.not_eq_true, HasPrefix_iff]; exact h2
      by_cases h3 : d <:+: r
      · simp [h1, h1', h2, h2', h3, (Contains_iff _ _).2 h3]
      · have h3' : Contains r d = false := by
          rw [← Bool.not_eq_true, Contains_iff]; exact h3
        simp [h1, h1', h2, h2', h3, h3']

/-- Claim C2. For every list, `removeDuplicates` returns a list without repeated
elements, with exactly the elements of the input, that is a subsequence of
the input in which elements are ordered by their first occurrence in the
input, together with a nil error; `[a,b,a,c,b]` gives `[a,b,c]`. -/
theorem removeDuplicates_first_occurrences :
    (∀ xs : List GoString,
      (removeDuplicates xs).1.Nodup
      ∧ (∀ x, x ∈ (removeDuplicates xs).1 ↔ x ∈ xs)
      ∧ (removeDuplicates xs).1.Sublist xs
      ∧ (removeDuplicates xs).1.Pairwise (fun a b => xs.indexOf a < xs.indexOf b)
      ∧ (removeDuplicates xs).2 = none)
    ∧ removeDuplicates [str "a", str "b", str "a", str "c", str "b"]
        = ([str "a", str "b", str "c"], none) := by
  refine ⟨fun xs => ?_, by decide⟩
  simp only [removeDuplicates, removeDuplicatesLoop_eq, List.nil_append]
  exact ⟨nodup_firstOccurrences _ _, fun x => by simp [mem_firstOccurrences],
    sublist_firstOccurrences _ _, pairwise_firstOccurrences _ _, trivial⟩

/-- Claim C3. `isValidImageURL(u)` is true exactly when the lower-cased `u` ends
with one of `.png`, `.jpg`, `.jpeg`, `.gif`, `.bmp`, `.svg`; nothing is
stripped before the suffix test, so `PIC.JPG` is accepted and `pic.jpg?x=1`
is rejected. -/
theorem isValidImageURL_iff (U : GoString → GoString) :
    (∀ u : GoString, isValidImageURL U u = true ↔
      (str ".png" <:+ ToLower U u ∨ str ".jpg" <:+ ToLower U u
        ∨ str ".jpeg" <:+ ToLower U u ∨ str ".gif" <:+ ToLower U u
        ∨ str ".bmp" <:+ ToLower U u ∨ str ".svg" <:+ ToLower U u))
    ∧ isValidImageURL U (str "PIC.JPG") = true
    ∧ isValidImageURL U (str "pic.jpg?x=1") = false := by
  refine ⟨?_, rfl, rfl⟩
  intro u
  simp only [isValidImageURL, validExtensions, isValidImageURLLoop, ← HasSuffix_iff]
  by_cases h1 : HasSuffix (ToLower U u) (str ".png") = true <;>
  by_cases h2 : HasSuffix (ToLower U u) (str ".jpg") = true <;>
  by_cases h3 : HasSuffix (ToLower U u) (str ".jpeg") = true <;>
  by_cases h4 : HasSuffix (ToLower U u) (str ".gif") = true <;>
  by_cases h5 : HasSuffix (ToLower U u) (str ".bmp") = true <;>
  simp [h1, h2, h3, h4, h5]

/-- Claim C4, as stated, fails: on the fixture page (two distinct images, a
repeated one, then a styled cell), domain `x.com` and an https page URL, the
returned list is not `[https://x.com//a.jpg, https://cdn.x.com/b.png,
https://x.com/c.gif]`, whatever the Unicode tables of `ToLower` are. -/
theorem scrapePictures_fixture_not_document_order :
    ¬ ∃ U : GoString → GoString,
      (scrapePictures U (str "x.com") (str "https://x.com/") (.served hostXCom fixturePage)).1
        = [str "https://x.com//a.jpg", str "https://cdn.x.com/b.png", str "https://x.com/c.gif"] := by
  rintro ⟨U, h⟩
  have e : (scrapePictures U (str "x.com") (str "https://x.com/") (.served hostXCom fixturePage)).1
      = [str "https://x.com/c.gif", str "https://x.com//a.jpg", str "https://cdn.x.com/b.png"] :=
    rfl
  rw [e] at h
  revert h
  decide

/-- Claim C4, amended. On the fixture page, with domain `x.com` and any page URL
starting with `https`, `scrapePictures` returns exactly
`[https://x.com/c.gif, https://x.com//a.jpg, https://cdn.x.com/b.png]` with a
nil error: the `td[style]` handler is registered first and runs over the
whole document before the `img` handler does, and the repeated image is
removed. -/
theorem scrapePictures_fixture (U : GoString → GoString) (page : GoString)
    (hpage : HasPrefix page (str "https") = true) :
    scrapePictures U (str "x.com") page (.served hostXCom fixturePage)
      = ([str "https://x.com/c.gif", str "https://x.com//a.jpg", str "https://cdn.x.com/b.png"],
         none) := by
  have hp : protocolOf page = str "https" := by simp [protocolOf, hpage]
  unfold scrapePictures
  simp only [hp]
  rfl

/-- The page URL `https://x.com/` starts with `https`, and the fixture page
scraped through it gives the amended list of claim C4. -/
theorem scrapePictures_fixture_witness :
    HasPrefix (str "https://x.com/") (str "https") = true
    ∧ scrapePictures id (str "x.com") (str "https://x.com/") (.served hostXCom fixturePage)
      = ([str "https://x.com/c.gif", str "https://x.com//a.jpg", str "https://cdn.x.com/b.png"],
         none) :=
  ⟨by decide, scrapePictures_fixture id (str "https://x.com/") (by decide)⟩

/-- Claim C5 at a failing input. For a page with 600 `img` elements whose
resolved sources are pairwise distinct and pass `isValidImageURL`, the
returned list has 600 elements, more than `maxImages`: the length test sits
before the visit, where the slice is still empty. -/
theorem scrapePictures_exceeds_maxImages (U : GoString → GoString) :
    (scrapePictures U (str "x.com") (str "https://x.com/") (.served hostXCom manyImagesPage)).1.length = 600
    ∧ maxImages < 600 := by
  refine ⟨?_, by decide⟩
  rw [scrapePictures_served U (str "x.com") _ hostXCom _ rfl]
  have hp : protocolOf (str "https://x.com/") = str "https" := rfl
  simp only [hp, manyImages_td, manyImages_candidates, List.nil_append]
  rw [firstOccurrences_of_nodup _ _ _ (fun _ _ => List.not_mem_nil _)]
  · simp
  · refine List.Nodup.map ?_ (List.nodup_range 600)
    intro i j hij
    simp only [List.append_cancel_left_eq, List.cons.injEq, and_true] at hij
    omega

/-- Claim C6 at a failing input. For a page with one cell styled
`background:url(/bg.php)` the returned list is `[https://x.com//bg.php]`,
whose element does not satisfy `isValidImageURL`: the `td[style]` handler
appends without the test the `img` handler makes. -/
theorem scrapePictures_style_unfiltered (U : GoString → GoString) :
    scrapePictures U (str "x.com") (str "https://x.com/") (.served hostXCom styledCellPage)
      = ([str "https://x.com//bg.php"], none)
    ∧ isValidImageURL U (str "https://x.com//bg.php") = false := by
  exact ⟨rfl, rfl⟩

/-- Claim C7, as stated, fails: on a served page of `example.com` the sources
`http.png` and `/blog/example.com-review.jpg` yield `http.png` and
`https:///blog/example.com-review.jpg`, neither with scheme and host,
whatever the Unicode tables of `ToLower` are. -/
theorem scrapePictures_not_all_absolute :
    ¬ ∃ U : GoString → GoString,
      ∀ u ∈ (scrapePictures U (str "example.com") (str "https://example.com/")
          (.served hostExampleCom misresolvedPage)).1, isAbsoluteURL u = true := by
  rintro ⟨U, h⟩
  have e : (scrapePictures U (str "example.com") (str "https://example.com/")
      (.served hostExampleCom misresolvedPage)).1
      = [str "http.png", str "https:///blog/example.com-review.jpg"] := rfl
  rw [e] at h
  revert h
  decide

/-- Claim C7, amended. For every non-empty domain, every page URL and every
visit, all returned elements begin with `http://` or `https://` followed by a
host exactly when every `img` source of the page whose resolved value
passes `isValidImageURL` is resolvable: after a leading `//` a host follows,
a source starting with `http` is absolute already, and any other source does
not both start with `/` and contain the domain. Elements derived from
`td[style]` are absolute without condition. -/
theorem scrapePictures_absolute (U : GoString → GoString) (d page : GoString)
    (net : VisitOutcome) (hne : d ≠ []) :
    (∀ u ∈ (scrapePictures U d page net).1, isAbsoluteURL u = true) ↔
      ∀ e ∈ net.handled d, selectImg e = true →
        isValidImageURL U (resolveSrc (protocolOf page) d (e.Attr (str "src"))) = true →
        srcResolvable d (e.Attr (str "src")) = true := by
  have hp := protocolOf_cases page
  constructor
  · intro hall e he hsel hvalid
    have hd := hostPresent_of_handled d net e hne he
    rw [← isAbsoluteURL_resolveSrc _ _ _ hp hd]
    apply hall
    rw [mem_scrapePictures]
    right
    simp only [imgCandidates, List.mem_filter, List.mem_map]
    exact ⟨⟨e, ⟨he, hsel⟩, rfl⟩, hvalid⟩
  · intro hsrc u hu
    rcases (mem_scrapePictures U d page net u).1 hu with h | h
    · simp only [tdCandidates, List.mem_filterMap, List.mem_filter, Option.map_eq_some'] at h
      obtain ⟨e, ⟨he, _⟩, m, _, rfl⟩ := h
      have hd := hostPresent_of_handled d net e hne he
      simp [isAbsoluteURL_protocol _ _ hp, hostPresent_append _ _ hd]
    · simp only [imgCandidates, List.mem_filter, List.mem_map] at h
      obtain ⟨⟨e, ⟨he, hsel⟩, rfl⟩, hvalid⟩ := h
      have hd := hostPresent_of_handled d net e hne he
      rw [isAbsoluteURL_resolveSrc _ _ _ hp hd]
      exact hsrc e he hsel hvalid

/-- The domain `x.com` is non-empty, every `img` source of the fixture page is
resolvable, and so every element returned for it is absolute: the amended
claim C7 at a concrete page. -/
theorem scrapePictures_absolute_witness :
    str "x.com" ≠ []
    ∧ ∀ u ∈ (scrapePictures id (str "x.com") (str "https://x.com/")
        (.served hostXCom fixturePage)).1, isAbsoluteURL u = true :=
  ⟨by decide,
    (scrapePictures_absolute id (str "x.com") (str "https://x.com/")
      (.served hostXCom fixturePage) (by decide)).2 (by decide)⟩

/-- Claim C8. When the visit fails with an error, `scrapePictures` returns the
slice as accumulated so far, without `removeDuplicates`, paired with that
error; when it succeeds it returns `removeDuplicates` of the accumulated
candidates (those of the `td[style]` handler, then those of the `img`
handler) paired with nil. Spelled out: a failed visit and a page outside the
allowed domain give the empty slice and the error, since no handler has run;
a served page of the domain gives the candidates with duplicates removed. -/
theorem scrapePictures_error_passthrough (U : GoString → GoString) (d page : GoString) :
    (∀ (net : VisitOutcome) (e : GoError),
      (Visit [d] (registeredCallbacks U (protocolOf page) d) net []).2 = some e →
      scrapePictures U d page net
        = ((Visit [d] (registeredCallbacks U (protocolOf page) d) net []).1, some e))
    ∧ (∀ net : VisitOutcome,
      (Visit [d] (registeredCallbacks U (protocolOf page) d) net []).2 = none →
      scrapePictures U d page net
        = ((removeDuplicates
            (Visit [d] (registeredCallbacks U (protocolOf page) d) net []).1).1, none))
    ∧ (∀ e : GoError, scrapePictures U d page (.failed e) = ([], some e))
    ∧ (∀ (host : URLHost) (doc : List HTMLElement), host.name ≠ d →
      scrapePictures U d page (.served host doc) = ([], some ErrForbiddenDomain))
    ∧ (∀ (host : URLHost) (doc : List HTMLElement), host.name = d →
      scrapePictures U d page (.served host doc)
        = ((removeDuplicates (tdCandidates (protocolOf page) d doc
            ++ imgCandidates U (protocolOf page) d doc)).1, none)) := by
  refine ⟨?_, ?_, fun e => rfl, fun host doc h => scrapePictures_forbidden U d page host doc h,
    fun host doc h => ?_⟩
  · intro net e h
    unfold scrapePictures
    simp only [maxImages, List.length_nil, Nat.le_zero_eq, OfNat.ofNat_ne_zero, if_false]
    generalize Visit [d] (registeredCallbacks U (protocolOf page) d) net [] = r at h
    obtain ⟨acc, err⟩ := r
    simp only at h
    subst h
    rfl
  · intro net h
    unfold scrapePictures
    simp only [maxImages, List.length_nil, Nat.le_zero_eq, OfNat.ofNat_ne_zero, if_false]
    generalize Visit [d] (registeredCallbacks U (protocolOf page) d) net [] = r at h
    obtain ⟨acc, err⟩ := r
    simp only at h
    subst h
    rfl
  · rw [scrapePictures_served U d page host doc h]
    simp [removeDuplicates, removeDuplicatesLoop_eq]

/-- Claim C9. `removeDuplicates` is idempotent. -/
theorem removeDuplicates_idempotent (xs : List GoString) :
    removeDuplicates (removeDuplicates xs).1 = removeDuplicates xs := by
  simp only [removeDuplicates, removeDuplicatesLoop_eq, List.nil_append]
  rw [firstOccurrences_of_nodup [] _ (nodup_firstOccurrences _ _) (fun _ _ => List.not_mem_nil _)]

/-- Claim C10. For a protocol `http` or `https`, the resolved source starts with
`http` and does not start with `//`, so resolving it again with the same
domain and protocol returns it unchanged. -/
theorem resolveSrc_idempotent (r d p : GoString) (hp : p = str "http" ∨ p = str "https") :
    HasPrefix (resolveSrc p d r) (str "http") = true
    ∧ HasPrefix (resolveSrc p d r) (str "//") = false
    ∧ resolveSrc p d (resolveSrc p d r) = resolveSrc p d r := by
  have key : HasPrefix (resolveSrc p d r) (str "http") = true
      ∧ HasPrefix (resolveSrc p d r) (str "//") = false := by
    have hpre : ∀ t : GoString, HasPrefix (p ++ t) (str "http") = true
        ∧ HasPrefix (p ++ t) (str "//") = false := by
      intro t
      rcases hp with rfl | rfl
      · simp [str_http, str_slashes, HasPrefix]
      · simp [str_http, str_https, str_slashes, HasPrefix]
    have hpre1 := fun t => (hpre t).1
    have hpre2 := fun t => (hpre t).2
    unfold resolveSrc
    cases h1 : HasPrefix r (str "//") with
    | true => simp [hpre1, hpre2]
    | false =>
      cases h2 : HasPrefix r (str "http") with
      | true => simp [h1, h2]
      | false =>
        cases h3 : Contains r d with
        | true => simp [hpre1, hpre2]
        | false => simp [hpre1, hpre2]
  refine ⟨key.1, key.2, ?_⟩
  generalize resolveSrc p d r = x at key
  unfold resolveSrc
  simp [key.1, key.2]

/-- The hypothesis of claim C10 holds for protocol `https`; resolving
`/img/a.png` twice gives the same as resolving it once. -/
theorem resolveSrc_idempotent_witness :
    (str "https" = str "http" ∨ str "https" = str "https")
    ∧ resolveSrc (str "https") (str "example.com")
        (resolveSrc (str "https") (str "example.com") (str "/img/a.png"))
      = resolveSrc (str "https") (str "example.com") (str "/img/a.png") :=
  ⟨Or.inr rfl,
    (resolveSrc_idempotent (str "/img/a.png") (str "example.com") (str "https") (Or.inr rfl)).2.2⟩

end PictureScrape
